import Mathlib

/-!
Verification of the ant-colony simulation core (src/ant-colony-game/game.js,
the multi-faction `Game` class starting at line 3070).

Modelling conventions for the shallow embedding:
* JS numbers are rationals (`ℚ`); `Math.floor` is `Int.floor`.
* `Math.sqrt(d) < r` (distance tests) is modelled by the equivalent
  `d < r * r`, since both sides are nonnegative.
* JS objects become structures; fields a JS object may lack
  (`hardness`/`digProgress` on air tiles, read through `x || 0`) are
  modelled as `0`.
* Mutation becomes explicit state passing; cosmetic effects
  (particles, screen shake, console logging) are outside the model.
* `Math.random()` draws are passed in explicitly as an oracle.
-/

/- Batteries marks the rational operations `@[irreducible]`, which blocks
`decide` on concrete rational facts; restore the default reducibility for
this file so concrete instances evaluate. -/
attribute [local semireducible] Rat.add Rat.mul Rat.sub Rat.inv

/-- Tile kinds: the strings dirt and air in the source. -/
inductive TileType
  | dirt
  | air
deriving DecidableEq, Repr

/-- One world cell, as built by `generateWorld` (game.js:3165) and mutated
by `digTile` (game.js:3948).  Air tiles carry `hardness = 0` and fresh dirt
carries `digProgress = 0`, standing for the absent JS fields. -/
structure Tile where
  type : TileType
  dug : Bool
  hardness : ℚ
  digProgress : ℚ
deriving DecidableEq, Repr

/-- The world grid: `this.tiles[ty][tx]`, `worldWidth`, `worldHeight`.
Tiles are a total function; all source accesses are bounds-guarded. -/
structure Grid where
  width : ℤ
  height : ℤ
  tiles : ℤ → ℤ → Tile

/-- Model of isValidTile (game.js:3939). -/
def isValidTile (g : Grid) (x y : ℤ) : Prop :=
  0 ≤ x ∧ x < g.width ∧ 0 ≤ y ∧ y < g.height

instance (g : Grid) (x y : ℤ) : Decidable (isValidTile g x y) := by
  unfold isValidTile; infer_instance

/-- Model of getTile (game.js:3930): floor the coordinates, null when out of range. -/
def getTile (g : Grid) (x y : ℚ) : Option Tile :=
  if isValidTile g ⌊x⌋ ⌊y⌋ then some (g.tiles ⌊y⌋ ⌊x⌋) else none

/-- Model of canMove (game.js:3943): tile exists and is dug or of air type. -/
def canMove (g : Grid) (x y : ℚ) : Bool :=
  match getTile g x y with
  | none => false
  | some t => t.dug || decide (t.type = TileType.air)

/-- Write one cell of the grid (the JS in-place tile mutation). -/
def setTile (g : Grid) (tx ty : ℤ) (t : Tile) : Grid :=
  { g with tiles := fun b a => if b = ty ∧ a = tx then t else g.tiles b a }

/-- Model of digTile (game.js:3948-3971).  Returns the updated grid and the JS
return value (`true` exactly on breakthrough). -/
def digTile (g : Grid) (x y digPower : ℚ) : Grid × Bool :=
  let tx := ⌊x⌋
  let ty := ⌊y⌋
  if isValidTile g tx ty then
    let tile := g.tiles ty tx
    if tile.dug = false ∧ tile.type = TileType.dirt then
      let p := tile.digProgress + digPower
      if tile.hardness ≤ p then
        (setTile g tx ty { type := TileType.air, dug := true,
                           hardness := tile.hardness, digProgress := p }, true)
      else
        (setTile g tx ty { tile with digProgress := p }, false)
    else (g, false)
  else (g, false)

/-- Repeated `digTile` calls at one spot, collecting the returned booleans. -/
def digList (g : Grid) (x y : ℚ) : List ℚ → Grid × List Bool
  | [] => (g, [])
  | p :: ps =>
    let r := digTile g x y p
    let rest := digList r.1 x y ps
    (rest.1, r.2 :: rest.2)

/-- The initialization loop of `generateWorld` (game.js:3167-3182):
sky (`air`, dug) above row 5, solid dirt with depth-scaled hardness below. -/
def generateWorldInit (w h : ℤ) : Grid :=
  { width := w
    height := h
    tiles := fun ty _ =>
      if ty < 5 then
        { type := TileType.air, dug := true, hardness := 0, digProgress := 0 }
      else
        { type := TileType.dirt, dug := false,
          hardness := 1/2 + ((ty : ℚ) / (h : ℚ)) * (1/2), digProgress := 0 } }

/-- The carving mutation shared by the colony-chamber loop (game.js:3194),
`generateCave` (game.js:3323) and `carveTunnel` (game.js:3478): set `dug`
and the air type together on one in-bounds cell. -/
def carveCell (g : Grid) (tx ty : ℤ) : Grid :=
  if isValidTile g tx ty then
    setTile g tx ty { g.tiles ty tx with dug := true, type := TileType.air }
  else g

/-- A tile-mutating event: every mutation of `this.tiles` after the
initialization loop is either a carve (world generation) or a dig. -/
inductive WorldOp
  | carve (tx ty : ℤ)
  | dig (x y p : ℚ)

/-- Apply one world operation. -/
def applyOp (g : Grid) : WorldOp → Grid
  | WorldOp.carve tx ty => carveCell g tx ty
  | WorldOp.dig x y p => (digTile g x y p).1

/-- Apply a sequence of world operations. -/
def applyOps (g : Grid) (ops : List WorldOp) : Grid :=
  ops.foldl applyOp g

/-- The tile invariant of the spec: `dug == true ⇒ kind == Air`. -/
def dugImpliesAir (g : Grid) : Prop :=
  ∀ b a : ℤ, (g.tiles b a).dug = true → (g.tiles b a).type = TileType.air

/-- A 1-cell grid holding a single undug dirt tile (hardness 1), used to
instantiate the dig theorems. -/
def dirtCell : Grid :=
  { width := 1, height := 1
    tiles := fun _ _ =>
      { type := TileType.dirt, dug := false, hardness := 1, digProgress := 0 } }

/-- Euclidean distance squared; `Math.sqrt(dx*dx+dy*dy) < r` in the source
is modelled as `distSq < r*r`. -/
def distSq (x1 y1 x2 y2 : ℚ) : ℚ :=
  (x2 - x1) * (x2 - x1) + (y2 - y1) * (y2 - y1)

/-- Worker/ant activity states (`this.state` strings in the source). -/
inductive AIState
  | idle
  | seeking
  | carrying
  | fighting
deriving DecidableEq, Repr

/-- Agent state: the union of the fields of `Ant` (game.js:4315) and its
subclasses `WorkerAnt`, `Queen`, `EnemyAnt` that the modelled operations
touch.  `id` models JS object identity (the `enemy === this` checks). -/
structure Ant where
  id : ℕ
  x : ℚ
  y : ℚ
  isPlayer : Bool
  speed : ℚ
  health : ℚ
  maxHealth : ℚ
  alive : Bool
  carryingFood : Bool
  foodAmount : ℚ
  attackCooldown : ℚ
  spawnTimer : ℚ
  state : AIState
deriving DecidableEq, Repr

/-- A food deposit (`FoodSource`): position and remaining amount. -/
structure FoodSource where
  x : ℚ
  y : ℚ
  amount : ℚ
deriving DecidableEq, Repr

/-- Model of Ant.takeDamage (game.js:4328-4339).  Returns the updated agent and
the food source dropped on death (if carrying). -/
def takeDamage (a : Ant) (amount : ℚ) : Ant × Option FoodSource :=
  let h := a.health - amount
  if h ≤ 0 then
    ({ a with health := 0, alive := false },
     if a.carryingFood = true ∧ 0 < a.foodAmount then
       some { x := a.x, y := a.y, amount := a.foodAmount }
     else none)
  else ({ a with health := h }, none)

/-- Iterated `takeDamage` (agent part only). -/
def takeDamageList (a : Ant) (amounts : List ℚ) : Ant :=
  amounts.foldl (fun s m => (takeDamage s m).1) a

/-- The AI worker food-pickup step (game.js:4633-4640): within radius 1
of a source with food left, transfer `min(5, amount)`. -/
def pickupFood (w : Ant) (f : FoodSource) : Ant × FoodSource :=
  if distSq w.x w.y f.x f.y < 1 ∧ 0 < f.amount then
    let taken := min 5 f.amount
    ({ w with foodAmount := taken, carryingFood := true, state := AIState.carrying },
     { f with amount := f.amount - taken })
  else (w, f)

/-- The AI worker delivery step (game.js:4587-4602): within radius 2.5 of
the queen at `(qx, qy)`, add the carried amount to the colony stockpile and
zero it.  Returns the updated worker and stockpile. -/
def deliverFood (w : Ant) (qx qy : ℚ) (colonyFood : ℚ) : Ant × ℚ :=
  if distSq w.x w.y qx qy < 25/4 then
    ({ w with foodAmount := 0, carryingFood := false, state := AIState.idle },
     colonyFood + w.foodAmount)
  else (w, colonyFood)

/-- The `WorkerAnt` constructor (game.js:4464-4478) combined with the `Ant`
base constructor: the fields of a freshly spawned worker. -/
def mkWorkerAnt (x y : ℚ) (isPlayer : Bool) : Ant :=
  { id := 0, x := x, y := y, isPlayer := isPlayer, speed := 3,
    health := 100, maxHealth := 100, alive := true,
    carryingFood := false, foodAmount := 0,
    attackCooldown := 0, spawnTimer := 0, state := AIState.idle }

/-- A faction (`Colony`, game.js:2981): faction id, stockpile, queen,
worker list. -/
structure Colony where
  factionId : ℕ
  food : ℚ
  queen : Ant
  workers : List Ant
deriving Repr

/-- Queen constants (game.js:4795-4796). -/
def spawnCooldown : ℚ := 10

/-- Food cost of one worker (game.js:4796). -/
def foodPerWorker : ℚ := 20

/-- The retry loop of `Colony.spawnWorker` (game.js:3022-3031): each draw
`(r1, r2)` yields the candidate `queen + (r - 0.5) * 2`; the first one that
passes `canMove` wins, else the fallback (the queen own position). -/
def spawnTry (g : Grid) (qx qy : ℚ) : List (ℚ × ℚ) → ℚ × ℚ
  | [] => (qx, qy)
  | r :: rs =>
    let tX := qx + (r.1 - 1/2) * 2
    let tY := qy + (r.2 - 1/2) * 2
    if canMove g tX tY then (tX, tY) else spawnTry g qx qy rs

/-- Model of Colony.spawnWorker (game.js:3015-3036): guard on a live queen, pick a
spawn spot with 10 bounded retries, append the new worker.  `rands` is the
oracle of `Math.random()` draw pairs. -/
def spawnWorker (g : Grid) (c : Colony) (rands : ℕ → ℚ × ℚ) : Colony :=
  if c.queen.alive = false then c
  else
    let pos := spawnTry g c.queen.x c.queen.y ((List.range 10).map rands)
    { c with workers := c.workers ++ [mkWorkerAnt pos.1 pos.2 false] }

/-- Set an agent spawn timer. -/
def resetTimer (q : Ant) (t : ℚ) : Ant := { q with spawnTimer := t }

/-- Model of Queen.update (game.js:4799-4815): advance the spawn timer; when it
reaches the cooldown and the stockpile covers the cost, deduct the cost,
spawn one worker and reset the timer. -/
def queenUpdate (dt : ℚ) (g : Grid) (c : Colony) (rands : ℕ → ℚ × ℚ) : Colony :=
  if spawnCooldown ≤ c.queen.spawnTimer + dt ∧ foodPerWorker ≤ c.food then
    spawnWorker g { c with food := c.food - foodPerWorker,
                           queen := resetTimer c.queen 0 } rands
  else { c with queen := resetTimer c.queen (c.queen.spawnTimer + dt) }

/-- Per-role hit strength of `WorkerAnt.checkCombat` (game.js:4685). -/
def workerDamage (self : Ant) : ℚ := if self.isPlayer then 30 else 15

/-- Per-role hit strength against queens (game.js:4686). -/
def queenDamage (self : Ant) : ℚ := if self.isPlayer then 20 else 10

/-- The agent part of `takeDamage` (the defender after one hit). -/
def hitAnt (t : Ant) (d : ℚ) : Ant := (takeDamage t d).1

/-- An entry of a scanned list is attackable (game.js:4697,4707): alive, a
different object, within `attackRange` 1.5, attacker cooldown elapsed. -/
def eligibleTarget (self t : Ant) : Prop :=
  t.alive = true ∧ t.id ≠ self.id ∧
  distSq self.x self.y t.x t.y < 9/4 ∧ self.attackCooldown ≤ 0

instance (self t : Ant) : Decidable (eligibleTarget self t) := by
  unfold eligibleTarget; infer_instance

/-- The queen check of `checkCombat` (game.js:4745,4754): alive, in range,
cooldown elapsed (no identity check in the source). -/
def queenEligible (self q : Ant) : Prop :=
  q.alive = true ∧ distSq self.x self.y q.x q.y < 9/4 ∧ self.attackCooldown ≤ 0

instance (self q : Ant) : Decidable (queenEligible self q) := by
  unfold queenEligible; infer_instance

/-- First attackable entry of a scanned list, with its index. -/
def firstTarget (self : Ant) : List Ant → Option (ℕ × Ant)
  | [] => none
  | t :: ts =>
    if eligibleTarget self t then some (0, t)
    else (firstTarget self ts).map (fun p => (p.1 + 1, p.2))

/-- The colony loop of `WorkerAnt.checkCombat` (game.js:4718-4763): skip
the own faction, hit the first attackable worker, else the queen if
attackable, else move on.  `none` means no hit happened. -/
def checkCombatColonies (self : Ant) (sf : ℕ) : List Colony → Option (List Colony)
  | [] => none
  | c :: cs =>
    if c.factionId = sf then
      (checkCombatColonies self sf cs).map (fun r => c :: r)
    else
      match firstTarget self c.workers with
      | some it =>
        some ({ c with workers := c.workers.set it.1 (hitAnt it.2 (workerDamage self)) } :: cs)
      | none =>
        if queenEligible self c.queen then
          some ({ c with queen := hitAnt c.queen (queenDamage self) } :: cs)
        else (checkCombatColonies self sf cs).map (fun r => c :: r)

/-- Model of WorkerAnt.checkCombat (game.js:4682-4764): scan game.enemies, then
the foreign colonies; apply one hit to the first attackable defender and
reset the attacker cooldown to 0.5, or change nothing. -/
def checkCombat (self : Ant) (sf : ℕ) (enemies : List Ant) (colonies : List Colony) :
    Ant × List Ant × List Colony :=
  match firstTarget self enemies with
  | some it =>
    ({ self with attackCooldown := 1/2 },
     enemies.set it.1 (hitAnt it.2 (workerDamage self)), colonies)
  | none =>
    match checkCombatColonies self sf colonies with
    | some cs => ({ self with attackCooldown := 1/2 }, enemies, cs)
    | none => (self, enemies, colonies)

/-- The cooldown decrement at the top of the per-tick update
(game.js:4484, 5197): `attackCooldown = max(0, attackCooldown - dt)`. -/
def cooldownTick (a : Ant) (dt : ℚ) : Ant :=
  { a with attackCooldown := max 0 (a.attackCooldown - dt) }

/-- The attack step of `EnemyAnt.update` (game.js:5262-5268): within
`attackRange` 1.5 with cooldown exactly 0, deal flat damage 8 and reset
the cooldown to 1. -/
def enemyAttack (self target : Ant) : Ant × Ant :=
  if distSq self.x self.y target.x target.y < 9/4 ∧ self.attackCooldown = 0 then
    ({ self with attackCooldown := 1 }, hitAnt target 8)
  else (self, target)

/-- A node of the pathfinding search: floored tile coordinates.  The JS
string keys (x comma y) are modelled by the pair itself. -/
abbrev Node : Type := ℤ × ℤ

/-- Association-list lookup modelling `Map.get` (first match; updates are
consed in front, so the newest binding wins, matching `Map.set`). -/
def aget {β : Type} : List (Node × β) → Node → Option β
  | [], _ => none
  | kv :: rest, k => if kv.1 = k then some kv.2 else aget rest k

/-- The JS idiom `m.get(k) || Infinity` (game.js:4145-4146, 4177, 4180):
`undefined` is falsy, but so is the number 0, so a stored score of 0 also
turns into `Infinity`.  This falsy zero is load-bearing for the behaviour
of `findPath`. -/
def orInf (o : Option (WithTop ℚ)) : WithTop ℚ :=
  match o with
  | none => ⊤
  | some v => if v = 0 then ⊤ else v

/-- Model of heuristic (game.js:4195-4198): Manhattan distance. -/
def heuristic (x1 y1 x2 y2 : ℤ) : ℚ :=
  |(x1 : ℚ) - (x2 : ℚ)| + |(y1 : ℚ) - (y2 : ℚ)|

/-- Tile-center point of a node (`x + 0.5, y + 0.5`). -/
def tileCenter (n : Node) : ℚ × ℚ := ((n.1 : ℚ) + 1/2, (n.2 : ℚ) + 1/2)

/-- The mutable search state of `findPath`. -/
structure AState where
  openSet : List Node
  cameFrom : List (Node × Node)
  gScore : List (Node × WithTop ℚ)
  fScore : List (Node × WithTop ℚ)

/-- The lowest-fScore scan (game.js:4142-4151): strict `<` against the
running best, so the earliest of equal scores wins; missing and zero
fScores read as `Infinity` via `orInf`. -/
def lowestGo (f : List (Node × WithTop ℚ)) :
    List Node → Node → ℕ → ℕ → Node × ℕ
  | [], best, bestIdx, _ => (best, bestIdx)
  | n :: rest, best, bestIdx, i =>
    if orInf (aget f n) < orInf (aget f best) then lowestGo f rest n i (i + 1)
    else lowestGo f rest best bestIdx (i + 1)

/-- The 8-connected neighbor list, in source order (game.js:4161-4171). -/
def neighborsOf (c : Node) : List Node :=
  [(c.1 + 1, c.2), (c.1 - 1, c.2), (c.1, c.2 + 1), (c.1, c.2 - 1),
   (c.1 + 1, c.2 + 1), (c.1 + 1, c.2 - 1), (c.1 - 1, c.2 + 1), (c.1 - 1, c.2 - 1)]

/-- One neighbor relaxation (game.js:4173-4188): skip impassable tiles;
`tentativeG = (gScore.get(current) || Infinity) + (diagonal ? 1.4 : 1)`;
on improvement record parent and scores and enqueue the neighbor. -/
def relaxNeighbor (g : Grid) (e : Node) (current : Node) (st : AState) (nbr : Node) :
    AState :=
  if canMove g (nbr.1 : ℚ) (nbr.2 : ℚ) = false then st
  else
    let isDiagonal : Prop := nbr.1 ≠ current.1 ∧ nbr.2 ≠ current.2
    let tg : WithTop ℚ :=
      orInf (aget st.gScore current) +
        (if isDiagonal then ((7/5 : ℚ) : WithTop ℚ) else ((1 : ℚ) : WithTop ℚ))
    if tg < orInf (aget st.gScore nbr) then
      { openSet := if nbr ∈ st.openSet then st.openSet else st.openSet ++ [nbr]
        cameFrom := (nbr, current) :: st.cameFrom
        gScore := (nbr, tg) :: st.gScore
        fScore := (nbr, tg + ((heuristic nbr.1 nbr.2 e.1 e.2 : ℚ) : WithTop ℚ)) ::
          st.fScore }
    else st

/-- The parent walk of `reconstructPath` (game.js:4200-4210), with explicit
fuel; the original `while` loop terminates on the reachable (acyclic)
`cameFrom` maps, which a fuel of `cameFrom.length` always covers. -/
def reconstructGo (cf : List (Node × Node)) :
    ℕ → Node → List (ℚ × ℚ) → List (ℚ × ℚ)
  | 0, _, acc => acc
  | fuel + 1, cur, acc =>
    match aget cf cur with
    | none => acc
    | some p => reconstructGo cf fuel p (tileCenter p :: acc)

/-- Model of reconstructPath (game.js:4200-4210): walk parents backward from the
goal, collecting tile centers front-first. -/
def reconstructPath (cf : List (Node × Node)) (current : Node) : List (ℚ × ℚ) :=
  reconstructGo cf cf.length current [tileCenter current]

/-- The `while (openSet.length > 0 && iterations < maxIterations)` loop of
`findPath` (game.js:4138-4190), one fuel per iteration; both exhausting the
frontier and exhausting the cap fall through to `null`. -/
def astarLoop (g : Grid) (e : Node) : ℕ → AState → Option (List (ℚ × ℚ))
  | 0, _ => none
  | fuel + 1, st =>
    match st.openSet with
    | [] => none
    | c0 :: rest =>
      let sel := lowestGo st.fScore rest c0 0 1
      if sel.1 = e then some (reconstructPath st.cameFrom sel.1)
      else
        let st1 := { st with openSet := st.openSet.eraseIdx sel.2 }
        astarLoop g e fuel ((neighborsOf sel.1).foldl (relaxNeighbor g e sel.1) st1)

/-- The expansion cap (game.js:4136). -/
def maxIterations : ℕ := 500

/-- Model of findPath (game.js:4116-4193): floor the endpoints, bail out if either
is impassable, then run the capped A* loop from the start node. -/
def findPath (g : Grid) (startX startY endX endY : ℚ) :
    Option (List (ℚ × ℚ)) :=
  let s : Node := (⌊startX⌋, ⌊startY⌋)
  let e : Node := (⌊endX⌋, ⌊endY⌋)
  if canMove g (s.1 : ℚ) (s.2 : ℚ) = false ∨ canMove g (e.1 : ℚ) (e.2 : ℚ) = false then
    none
  else
    astarLoop g e maxIterations
      { openSet := [s]
        cameFrom := []
        gScore := [(s, ((0 : ℚ) : WithTop ℚ))]
        fScore := [(s, ((heuristic s.1 s.2 e.1 e.2 : ℚ) : WithTop ℚ))] }

/-- A fully open 5×5 grid (every tile dug air), the pathfinding scenario of
the spec. -/
def open5 : Grid :=
  { width := 5, height := 5
    tiles := fun _ _ =>
      { type := TileType.air, dug := true, hardness := 0, digProgress := 0 } }

/-- A concrete agent used to instantiate the agent theorems. -/
def antA : Ant :=
  { id := 1, x := 0, y := 0, isPlayer := false, speed := 3,
    health := 100, maxHealth := 100, alive := true,
    carryingFood := false, foodAmount := 0,
    attackCooldown := 0, spawnTimer := 0, state := AIState.idle }

/-- A 50-unit food source at the origin. -/
def food50 : FoodSource := { x := 1/2, y := 0, amount := 50 }

/-- A colony whose queen is ready to spawn: timer 9, stockpile 25. -/
def readyColony : Colony :=
  { factionId := 0, food := 25, queen := { antA with spawnTimer := 9 },
    workers := [] }

/-- A constant random oracle. -/
def randsZero : ℕ → ℚ × ℚ := fun _ => (0, 0)

/-- A live enemy agent one tile away from `antA` (within attack range). -/
def enemyB : Ant := { antA with id := 2, x := 1 }

/-- Exactly one defender hit: the output of a combat scan equals the input
with a single entry replaced by that entry after one flat-damage hit
(worker damage for `game.enemies`/foreign workers, queen damage for a
foreign queen), everything else unchanged. -/
def OneHit (self : Ant) (sf : ℕ) (es : List Ant) (cs : List Colony)
    (out : List Ant × List Colony) : Prop :=
  (∃ i t, es[i]? = some t ∧ eligibleTarget self t ∧
    out = (es.set i (hitAnt t (workerDamage self)), cs)) ∨
  (∃ j c, cs[j]? = some c ∧ c.factionId ≠ sf ∧
    ((∃ i t, c.workers[i]? = some t ∧ eligibleTarget self t ∧
       out = (es, cs.set j
         { c with workers := c.workers.set i (hitAnt t (workerDamage self)) })) ∨
     (queenEligible self c.queen ∧
       out = (es, cs.set j { c with queen := hitAnt c.queen (queenDamage self) }))))

theorem setTile_tiles_at (g : Grid) (tx ty : ℤ) (t : Tile) :
    (setTile g tx ty t).tiles ty tx = t := by
  simp [setTile]

theorem setTile_tiles_ne (g : Grid) (tx ty a b : ℤ) (t : Tile)
    (h : ¬(b = ty ∧ a = tx)) : (setTile g tx ty t).tiles b a = g.tiles b a := by
  simp only [setTile]
  rw [if_neg h]

theorem isValidTile_setTile (g : Grid) (tx ty x y : ℤ) (t : Tile) :
    isValidTile (setTile g tx ty t) x y ↔ isValidTile g x y := Iff.rfl

theorem digTile_noop (g : Grid) (x y p : ℚ)
    (h : ¬ isValidTile g ⌊x⌋ ⌊y⌋ ∨ (g.tiles ⌊y⌋ ⌊x⌋).dug = true ∨
         (g.tiles ⌊y⌋ ⌊x⌋).type ≠ TileType.dirt) :
    digTile g x y p = (g, false) := by
  unfold digTile
  by_cases hv : isValidTile g ⌊x⌋ ⌊y⌋
  · rw [if_pos hv]
    rcases h with h | h | h
    · exact absurd hv h
    · rw [if_neg (by simp [h])]
    · rw [if_neg (by simp [h])]
  · rw [if_neg hv]

theorem digTile_break (g : Grid) (x y p : ℚ)
    (hv : isValidTile g ⌊x⌋ ⌊y⌋)
    (hd : (g.tiles ⌊y⌋ ⌊x⌋).dug = false)
    (ht : (g.tiles ⌊y⌋ ⌊x⌋).type = TileType.dirt)
    (hh : (g.tiles ⌊y⌋ ⌊x⌋).hardness ≤ (g.tiles ⌊y⌋ ⌊x⌋).digProgress + p) :
    digTile g x y p =
      (setTile g ⌊x⌋ ⌊y⌋
        { type := TileType.air, dug := true,
          hardness := (g.tiles ⌊y⌋ ⌊x⌋).hardness,
          digProgress := (g.tiles ⌊y⌋ ⌊x⌋).digProgress + p }, true) := by
  unfold digTile
  rw [if_pos hv, if_pos ⟨hd, ht⟩, if_pos hh]

theorem digTile_accum (g : Grid) (x y p : ℚ)
    (hv : isValidTile g ⌊x⌋ ⌊y⌋)
    (hd : (g.tiles ⌊y⌋ ⌊x⌋).dug = false)
    (ht : (g.tiles ⌊y⌋ ⌊x⌋).type = TileType.dirt)
    (hh : ¬ (g.tiles ⌊y⌋ ⌊x⌋).hardness ≤ (g.tiles ⌊y⌋ ⌊x⌋).digProgress + p) :
    digTile g x y p =
      (setTile g ⌊x⌋ ⌊y⌋
        { g.tiles ⌊y⌋ ⌊x⌋ with
          digProgress := (g.tiles ⌊y⌋ ⌊x⌋).digProgress + p }, false) := by
  unfold digTile
  rw [if_pos hv, if_pos ⟨hd, ht⟩, if_neg hh]

theorem digTile_shape (g : Grid) (x y p : ℚ) :
    digTile g x y p = (g, false) ∨
    ∃ t : Tile, (digTile g x y p).1 = setTile g ⌊x⌋ ⌊y⌋ t ∧
      t.digProgress = (g.tiles ⌊y⌋ ⌊x⌋).digProgress + p := by
  by_cases hv : isValidTile g ⌊x⌋ ⌊y⌋
  · by_cases hd : (g.tiles ⌊y⌋ ⌊x⌋).dug = false
    · by_cases ht : (g.tiles ⌊y⌋ ⌊x⌋).type = TileType.dirt
      · by_cases hh : (g.tiles ⌊y⌋ ⌊x⌋).hardness ≤ (g.tiles ⌊y⌋ ⌊x⌋).digProgress + p
        · right
          refine ⟨{ type := TileType.air, dug := true,
                    hardness := (g.tiles ⌊y⌋ ⌊x⌋).hardness,
                    digProgress := (g.tiles ⌊y⌋ ⌊x⌋).digProgress + p }, ?_, rfl⟩
          rw [digTile_break g x y p hv hd ht hh]
        · right
          refine ⟨{ g.tiles ⌊y⌋ ⌊x⌋ with
                    digProgress := (g.tiles ⌊y⌋ ⌊x⌋).digProgress + p }, ?_, rfl⟩
          rw [digTile_accum g x y p hv hd ht hh]
      · left; exact digTile_noop g x y p (Or.inr (Or.inr ht))
    · left; exact digTile_noop g x y p (Or.inr (Or.inl (by simpa using hd)))
  · left; exact digTile_noop g x y p (Or.inl hv)

theorem digTile_width (g : Grid) (x y p : ℚ) :
    (digTile g x y p).1.width = g.width := by
  rcases digTile_shape g x y p with h | ⟨t, h1, _⟩
  · rw [h]
  · rw [h1]; rfl

theorem digTile_height (g : Grid) (x y p : ℚ) :
    (digTile g x y p).1.height = g.height := by
  rcases digTile_shape g x y p with h | ⟨t, h1, _⟩
  · rw [h]
  · rw [h1]; rfl

theorem digTile_tiles_ne (g : Grid) (x y p : ℚ) (a b : ℤ)
    (h : ¬(b = ⌊y⌋ ∧ a = ⌊x⌋)) :
    (digTile g x y p).1.tiles b a = g.tiles b a := by
  rcases digTile_shape g x y p with h1 | ⟨t, h1, _⟩
  · rw [h1]
  · rw [h1]; exact setTile_tiles_ne g ⌊x⌋ ⌊y⌋ a b t h

theorem digTile_mono (g : Grid) (x y p : ℚ) (hp : 0 ≤ p) (a b : ℤ) :
    (g.tiles b a).digProgress ≤ ((digTile g x y p).1.tiles b a).digProgress := by
  rcases digTile_shape g x y p with h1 | ⟨t, h1, h2⟩
  · rw [h1]
  · by_cases hc : b = ⌊y⌋ ∧ a = ⌊x⌋
    · obtain ⟨hb, ha⟩ := hc
      subst hb; subst ha
      rw [h1, setTile_tiles_at, h2]
      linarith
    · rw [h1, setTile_tiles_ne g ⌊x⌋ ⌊y⌋ a b t hc]

theorem digList_mono (x y : ℚ) :
    ∀ (ps : List ℚ) (g : Grid), (∀ p ∈ ps, 0 ≤ p) → ∀ a b : ℤ,
      (g.tiles b a).digProgress ≤ ((digList g x y ps).1.tiles b a).digProgress := by
  intro ps
  induction ps with
  | nil => intro g _ a b; exact le_refl _
  | cons p rest ih =>
    intro g hp a b
    have h1 := digTile_mono g x y p (hp p (by simp)) a b
    have h2 := ih (digTile g x y p).1 (fun q hq => hp q (by simp [hq])) a b
    exact le_trans h1 (le_trans h2 (le_of_eq rfl))

theorem digList_dug (x y : ℚ) :
    ∀ (ps : List ℚ) (g : Grid), (g.tiles ⌊y⌋ ⌊x⌋).dug = true →
      digList g x y ps = (g, List.replicate ps.length false) := by
  intro ps
  induction ps with
  | nil => intro g _; rfl
  | cons p rest ih =>
    intro g hd
    have hno : digTile g x y p = (g, false) :=
      digTile_noop g x y p (Or.inr (Or.inl hd))
    simp only [digList, hno, ih g hd, List.length_cons, List.replicate_succ]

theorem digList_firstTrue (x y : ℚ) :
    ∀ (ps : List ℚ) (g : Grid),
      isValidTile g ⌊x⌋ ⌊y⌋ →
      (g.tiles ⌊y⌋ ⌊x⌋).dug = false →
      (g.tiles ⌊y⌋ ⌊x⌋).type = TileType.dirt →
      (g.tiles ⌊y⌋ ⌊x⌋).digProgress < (g.tiles ⌊y⌋ ⌊x⌋).hardness →
      (∀ p ∈ ps, 0 ≤ p) →
      ∀ i < ps.length,
        ((digList g x y ps).2[i]? = some true ↔
          ((g.tiles ⌊y⌋ ⌊x⌋).hardness ≤
              (g.tiles ⌊y⌋ ⌊x⌋).digProgress + (ps.take (i + 1)).sum ∧
            (g.tiles ⌊y⌋ ⌊x⌋).digProgress + (ps.take i).sum <
              (g.tiles ⌊y⌋ ⌊x⌋).hardness)) := by
  intro ps
  induction ps with
  | nil => intro g _ _ _ _ _ i hi; simp at hi
  | cons p rest ih =>
    intro g hv hd ht h0 hp i hi
    set d0 := (g.tiles ⌊y⌋ ⌊x⌋).digProgress with hd0
    set hh := (g.tiles ⌊y⌋ ⌊x⌋).hardness with hhh
    by_cases hbr : hh ≤ d0 + p
    · -- breakthrough on the first call
      have heq := digTile_break g x y p hv hd ht hbr
      have hdug : ((digTile g x y p).1.tiles ⌊y⌋ ⌊x⌋).dug = true := by
        rw [heq, setTile_tiles_at]
      have hrest := digList_dug x y rest (digTile g x y p).1 hdug
      have houts : (digList g x y (p :: rest)).2 =
          true :: List.replicate rest.length false := by
        simp only [digList, hrest]
        rw [heq]
      rw [houts]
      match i with
      | 0 =>
        simp only [List.getElem?_cons_zero, List.take, List.sum_cons,
          List.take_zero, List.sum_nil]
        constructor
        · intro _
          constructor
          · simpa using hbr
          · simpa using h0
        · intro _; trivial
      | Nat.succ k =>
        have hk : k < rest.length := by
          simpa using hi
        simp only [List.getElem?_cons_succ, List.getElem?_replicate, if_pos hk]
        constructor
        · intro hfalse; cases hfalse
        · rintro ⟨_, hlt⟩
          exfalso
          have hsum : 0 ≤ (rest.take k).sum := by
            apply List.sum_nonneg
            intro q hq
            exact hp q (by simp [List.mem_of_mem_take hq])
          have : d0 + (List.take (k + 1) (p :: rest)).sum =
              d0 + p + (rest.take k).sum := by
            simp [List.take, List.sum_cons]; ring
          rw [this] at hlt
          linarith
    · -- progress accumulates, no breakthrough yet
      have heq := digTile_accum g x y p hv hd ht hbr
      have hg1 : (digTile g x y p).1 = setTile g ⌊x⌋ ⌊y⌋
          { g.tiles ⌊y⌋ ⌊x⌋ with digProgress := d0 + p } := by
        rw [heq]
      have htile1 : ((digTile g x y p).1.tiles ⌊y⌋ ⌊x⌋) =
          { g.tiles ⌊y⌋ ⌊x⌋ with digProgress := d0 + p } := by
        rw [hg1, setTile_tiles_at]
      have hv1 : isValidTile (digTile g x y p).1 ⌊x⌋ ⌊y⌋ := by
        rw [hg1]; exact hv
      have hd1 : ((digTile g x y p).1.tiles ⌊y⌋ ⌊x⌋).dug = false := by
        rw [htile1]; exact hd
      have ht1 : ((digTile g x y p).1.tiles ⌊y⌋ ⌊x⌋).type = TileType.dirt := by
        rw [htile1]; exact ht
      have h01 : ((digTile g x y p).1.tiles ⌊y⌋ ⌊x⌋).digProgress <
          ((digTile g x y p).1.tiles ⌊y⌋ ⌊x⌋).hardness := by
        rw [htile1]
        simpa using lt_of_not_le hbr
      have houts : (digList g x y (p :: rest)).2 =
          (digTile g x y p).2 :: (digList (digTile g x y p).1 x y rest).2 := rfl
      match i with
      | 0 =>
        have hfalse : (digTile g x y p).2 = false := by rw [heq]
        rw [houts]
        simp only [List.getElem?_cons_zero, hfalse, List.take, List.sum_cons,
          List.take_zero, List.sum_nil]
        constructor
        · intro hcon; cases hcon
        · rintro ⟨habs, _⟩
          exfalso
          rw [add_zero] at habs
          exact hbr (by linarith)
      | Nat.succ k =>
        have hk : k < rest.length := by simpa using hi
        have := ih (digTile g x y p).1 hv1 hd1 ht1 h01
          (fun q hq => hp q (by simp [hq])) k hk
        rw [htile1] at this
        simp only at this
        rw [houts]
        simp only [List.getElem?_cons_succ]
        rw [this]
        have e1 : d0 + p + (rest.take (k + 1)).sum =
            d0 + (List.take (k + 1 + 1) (p :: rest)).sum := by
          simp [List.take, List.sum_cons]; ring
        have e2 : d0 + p + (rest.take k).sum =
            d0 + (List.take (k + 1) (p :: rest)).sum := by
          simp [List.take, List.sum_cons]; ring
        rw [e1, e2]

/-- Claim C1: `digTile(x, y, p)` is a no-op returning `false` when the
floored coordinates are out of bounds, the tile is already dug, or its type
is not dirt; otherwise it adds `p` to the tile field `digProgress` (which never
decreases across repeated calls), and it returns `true` exactly on the call
whose accumulated progress first reaches the tile hardness, at which
point the tile is flipped to dug/air; it returns `false` before that. -/
theorem digTile_dig_spec :
    (∀ (g : Grid) (x y p : ℚ),
        ¬ isValidTile g ⌊x⌋ ⌊y⌋ ∨ (g.tiles ⌊y⌋ ⌊x⌋).dug = true ∨
          (g.tiles ⌊y⌋ ⌊x⌋).type ≠ TileType.dirt →
        digTile g x y p = (g, false)) ∧
    (∀ (g : Grid) (x y p : ℚ),
        isValidTile g ⌊x⌋ ⌊y⌋ → (g.tiles ⌊y⌋ ⌊x⌋).dug = false →
        (g.tiles ⌊y⌋ ⌊x⌋).type = TileType.dirt →
        ((digTile g x y p).1.tiles ⌊y⌋ ⌊x⌋).digProgress =
            (g.tiles ⌊y⌋ ⌊x⌋).digProgress + p ∧
        ((digTile g x y p).2 = true ↔
            (g.tiles ⌊y⌋ ⌊x⌋).hardness ≤ (g.tiles ⌊y⌋ ⌊x⌋).digProgress + p) ∧
        ((digTile g x y p).2 = true →
            ((digTile g x y p).1.tiles ⌊y⌋ ⌊x⌋).dug = true ∧
            ((digTile g x y p).1.tiles ⌊y⌋ ⌊x⌋).type = TileType.air) ∧
        ((digTile g x y p).2 = false →
            ((digTile g x y p).1.tiles ⌊y⌋ ⌊x⌋).dug = false ∧
            ((digTile g x y p).1.tiles ⌊y⌋ ⌊x⌋).type = TileType.dirt)) ∧
    (∀ (g : Grid) (x y : ℚ) (ps : List ℚ), (∀ p ∈ ps, 0 ≤ p) → ∀ a b : ℤ,
        (g.tiles b a).digProgress ≤ ((digList g x y ps).1.tiles b a).digProgress) ∧
    (∀ (g : Grid) (x y : ℚ) (ps : List ℚ),
        isValidTile g ⌊x⌋ ⌊y⌋ →
        (g.tiles ⌊y⌋ ⌊x⌋).dug = false →
        (g.tiles ⌊y⌋ ⌊x⌋).type = TileType.dirt →
        (g.tiles ⌊y⌋ ⌊x⌋).digProgress < (g.tiles ⌊y⌋ ⌊x⌋).hardness →
        (∀ p ∈ ps, 0 ≤ p) →
        ∀ i < ps.length,
          ((digList g x y ps).2[i]? = some true ↔
            ((g.tiles ⌊y⌋ ⌊x⌋).hardness ≤
                (g.tiles ⌊y⌋ ⌊x⌋).digProgress + (ps.take (i + 1)).sum ∧
              (g.tiles ⌊y⌋ ⌊x⌋).digProgress + (ps.take i).sum <
                (g.tiles ⌊y⌋ ⌊x⌋).hardness))) := by
  refine ⟨digTile_noop, ?_, fun g x y ps h a b => digList_mono x y ps g h a b,
    fun g x y ps hv hd ht h0 hp => digList_firstTrue x y ps g hv hd ht h0 hp⟩
  intro g x y p hv hd ht
  by_cases hbr : (g.tiles ⌊y⌋ ⌊x⌋).hardness ≤ (g.tiles ⌊y⌋ ⌊x⌋).digProgress + p
  · have heq := digTile_break g x y p hv hd ht hbr
    rw [heq]
    refine ⟨?_, ?_, ?_, ?_⟩ <;> simp [setTile_tiles_at, hbr]
  · have heq := digTile_accum g x y p hv hd ht hbr
    rw [heq]
    refine ⟨?_, ?_, ?_, ?_⟩ <;> simp [setTile_tiles_at, hbr, hd, ht]

/-- Witness for C1: on a 1×1 undug dirt cell of hardness 1, three dig calls
of power 1/2 return `true` exactly on the second call. -/
theorem digTile_dig_spec_witness :
    (isValidTile dirtCell ⌊(0:ℚ)⌋ ⌊(0:ℚ)⌋ ∧
     (dirtCell.tiles ⌊(0:ℚ)⌋ ⌊(0:ℚ)⌋).dug = false ∧
     (dirtCell.tiles ⌊(0:ℚ)⌋ ⌊(0:ℚ)⌋).type = TileType.dirt ∧
     (dirtCell.tiles ⌊(0:ℚ)⌋ ⌊(0:ℚ)⌋).digProgress <
       (dirtCell.tiles ⌊(0:ℚ)⌋ ⌊(0:ℚ)⌋).hardness ∧
     (∀ p ∈ [(1:ℚ)/2, 1/2, 1/2], 0 ≤ p)) ∧
    ((digList dirtCell 0 0 [(1:ℚ)/2, 1/2, 1/2]).2[1]? = some true ↔
      ((dirtCell.tiles ⌊(0:ℚ)⌋ ⌊(0:ℚ)⌋).hardness ≤
          (dirtCell.tiles ⌊(0:ℚ)⌋ ⌊(0:ℚ)⌋).digProgress +
            (([(1:ℚ)/2, 1/2, 1/2]).take 2).sum ∧
        (dirtCell.tiles ⌊(0:ℚ)⌋ ⌊(0:ℚ)⌋).digProgress +
            (([(1:ℚ)/2, 1/2, 1/2]).take 1).sum <
          (dirtCell.tiles ⌊(0:ℚ)⌋ ⌊(0:ℚ)⌋).hardness)) :=
  ⟨⟨by decide, by decide, by decide, by decide, by decide⟩,
   digTile_dig_spec.2.2.2 dirtCell 0 0 [(1:ℚ)/2, 1/2, 1/2]
     (by decide) (by decide) (by decide) (by decide) (by decide) 1 (by decide)⟩

/-- Claim C10: a `digTile` call mutates at most the single tile at the
floored coordinates; every other tile and the grid dimensions are
unchanged, and at most one tile (the target) can flip from undug to dug. -/
theorem digTile_frame :
    ∀ (g : Grid) (x y p : ℚ),
      (digTile g x y p).1.width = g.width ∧
      (digTile g x y p).1.height = g.height ∧
      (∀ a b : ℤ, ¬(b = ⌊y⌋ ∧ a = ⌊x⌋) →
        (digTile g x y p).1.tiles b a = g.tiles b a) ∧
      (∀ a b : ℤ, (digTile g x y p).1.tiles b a ≠ g.tiles b a →
        a = ⌊x⌋ ∧ b = ⌊y⌋) ∧
      (∀ a b : ℤ, (g.tiles b a).dug = false →
        ((digTile g x y p).1.tiles b a).dug = true → a = ⌊x⌋ ∧ b = ⌊y⌋) := by
  intro g x y p
  refine ⟨digTile_width g x y p, digTile_height g x y p,
    fun a b h => digTile_tiles_ne g x y p a b h, ?_, ?_⟩
  · intro a b hne
    by_contra hcon
    apply hne
    apply digTile_tiles_ne
    intro ⟨hb, ha⟩
    exact hcon ⟨ha, hb⟩
  · intro a b h0 h1
    by_contra hcon
    have heq : (digTile g x y p).1.tiles b a = g.tiles b a := by
      apply digTile_tiles_ne
      intro ⟨hb, ha⟩
      exact hcon ⟨ha, hb⟩
    rw [heq, h0] at h1
    cases h1

/-- Witness for C10: digging the 1×1 dirt cell with power 2 flips exactly
the target tile. -/
theorem digTile_frame_witness :
    ((dirtCell.tiles 0 0).dug = false ∧
     ((digTile dirtCell 0 0 2).1.tiles 0 0).dug = true) ∧
    ((0:ℤ) = ⌊(0:ℚ)⌋ ∧ (0:ℤ) = ⌊(0:ℚ)⌋) :=
  ⟨⟨by decide, by decide⟩,
   (digTile_frame dirtCell 0 0 2).2.2.2.2 0 0 (by decide) (by decide)⟩

theorem carveCell_inv (g : Grid) (tx ty : ℤ) (h : dugImpliesAir g) :
    dugImpliesAir (carveCell g tx ty) := by
  intro b a hdug
  unfold carveCell at hdug ⊢
  split_ifs at hdug ⊢ with hv
  · by_cases hc : b = ty ∧ a = tx
    · obtain ⟨hb, ha⟩ := hc
      subst hb; subst ha
      rw [setTile_tiles_at]
    · rw [setTile_tiles_ne g tx ty a b _ hc] at hdug
      rw [setTile_tiles_ne g tx ty a b _ hc]
      exact h b a hdug
  · exact h b a hdug

theorem digTile_inv (g : Grid) (x y p : ℚ) (h : dugImpliesAir g) :
    dugImpliesAir (digTile g x y p).1 := by
  intro b a hdug
  by_cases hc : b = ⌊y⌋ ∧ a = ⌊x⌋
  · obtain ⟨hb, ha⟩ := hc
    subst hb; subst ha
    by_cases hv : isValidTile g ⌊x⌋ ⌊y⌋
    · by_cases hd : (g.tiles ⌊y⌋ ⌊x⌋).dug = false
      · by_cases ht : (g.tiles ⌊y⌋ ⌊x⌋).type = TileType.dirt
        · by_cases hbr : (g.tiles ⌊y⌋ ⌊x⌋).hardness ≤
              (g.tiles ⌊y⌋ ⌊x⌋).digProgress + p
          · rw [digTile_break g x y p hv hd ht hbr, setTile_tiles_at]
          · rw [digTile_accum g x y p hv hd ht hbr, setTile_tiles_at] at hdug
            simp only at hdug
            rw [hd] at hdug
            cases hdug
        · rw [digTile_noop g x y p (Or.inr (Or.inr ht))] at hdug ⊢
          exact h _ _ hdug
      · rw [digTile_noop g x y p (Or.inr (Or.inl (by simpa using hd)))] at hdug ⊢
        exact h _ _ hdug
    · rw [digTile_noop g x y p (Or.inl hv)] at hdug ⊢
      exact h _ _ hdug
  · rw [digTile_tiles_ne g x y p a b hc] at hdug
    rw [digTile_tiles_ne g x y p a b hc]
    exact h b a hdug

theorem generateWorldInit_inv (w h : ℤ) : dugImpliesAir (generateWorldInit w h) := by
  intro b a hdug
  unfold generateWorldInit at hdug ⊢
  simp only at hdug ⊢
  split_ifs at hdug ⊢
  · rfl

theorem applyOps_inv : ∀ (ops : List WorldOp) (g : Grid),
    dugImpliesAir g → dugImpliesAir (applyOps g ops) := by
  intro ops
  induction ops with
  | nil => intro g hg; exact hg
  | cons op rest ih =>
    intro g hg
    have hstep : dugImpliesAir (applyOp g op) := by
      cases op with
      | carve tx ty => exact carveCell_inv g tx ty hg
      | dig x y p => exact digTile_inv g x y p hg
    exact ih (applyOp g op) hstep

/-- Claim C2: starting from the generated world, the invariant
`dug = true → type = air` holds after any sequence of carve and dig
operations (all tile mutations of the source are of these two forms). -/
theorem tile_invariant_spec :
    ∀ (w h : ℤ) (ops : List WorldOp),
      dugImpliesAir (applyOps (generateWorldInit w h) ops) :=
  fun w h ops => applyOps_inv ops (generateWorldInit w h) (generateWorldInit_inv w h)

/-- Witness for C2: a carved then partially dug 8×6 world keeps the
invariant at a dug sky cell. -/
theorem tile_invariant_spec_witness :
    ((applyOps (generateWorldInit 8 6)
        [WorldOp.carve 0 5, WorldOp.dig 0 5 (1/4)]).tiles 0 0).dug = true ∧
    ((applyOps (generateWorldInit 8 6)
        [WorldOp.carve 0 5, WorldOp.dig 0 5 (1/4)]).tiles 0 0).type = TileType.air :=
  ⟨by decide,
   tile_invariant_spec 8 6 [WorldOp.carve 0 5, WorldOp.dig 0 5 (1/4)] 0 0 (by decide)⟩

/-- Claim C9 (amended): after initialization every row below the surface
threshold (row ≥ 5) is solid undug dirt with hardness exactly
`0.5 + 0.5·(row/height)` — hence `0.5 + 2.5/height` (not exactly 0.5) at
the top underground row — increasing monotonically with the row index,
while every row above the threshold is air. -/
theorem generateWorldInit_spec :
    ∀ (w h : ℤ), 0 < h → ∀ (tx ty : ℤ),
      (ty < 5 → ((generateWorldInit w h).tiles ty tx).type = TileType.air ∧
        ((generateWorldInit w h).tiles ty tx).dug = true) ∧
      (5 ≤ ty →
        ((generateWorldInit w h).tiles ty tx).type = TileType.dirt ∧
        ((generateWorldInit w h).tiles ty tx).dug = false ∧
        ((generateWorldInit w h).tiles ty tx).hardness =
          1/2 + ((ty : ℚ) / (h : ℚ)) * (1/2)) ∧
      (((generateWorldInit w h).tiles 5 tx).hardness =
        1/2 + ((5 : ℚ) / (h : ℚ)) * (1/2)) ∧
      (∀ ty2 : ℤ, 5 ≤ ty → ty ≤ ty2 →
        ((generateWorldInit w h).tiles ty tx).hardness ≤
          ((generateWorldInit w h).tiles ty2 tx).hardness) := by
  intro w h hh tx ty
  have hq : (0 : ℚ) < (h : ℚ) := by exact_mod_cast hh
  refine ⟨?_, ?_, ?_, ?_⟩
  · intro hty
    unfold generateWorldInit
    simp only
    rw [if_pos hty]
    exact ⟨rfl, rfl⟩
  · intro hty
    unfold generateWorldInit
    simp only
    rw [if_neg (by omega)]
    exact ⟨rfl, rfl, rfl⟩
  · unfold generateWorldInit
    simp only
    rw [if_neg (by omega)]
    norm_num
  · intro ty2 h5 hle
    unfold generateWorldInit
    simp only
    rw [if_neg (by omega), if_neg (by omega)]
    have hcast : (ty : ℚ) ≤ (ty2 : ℚ) := by exact_mod_cast hle
    have hdiv : (ty : ℚ) / (h : ℚ) ≤ (ty2 : ℚ) / (h : ℚ) := by gcongr
    simp only
    linarith

/-- Counterexample for C9: at the original dimensions (400×300) the top
underground row is row 5 (row 4 is still air), and its initial hardness is
`121/240`, not `0.5`. -/
theorem generateWorldInit_top_row_counterexample :
    ((generateWorldInit 400 300).tiles 4 0).type = TileType.air ∧
    ((generateWorldInit 400 300).tiles 5 0).type = TileType.dirt ∧
    ((generateWorldInit 400 300).tiles 5 0).hardness ≠ 1/2 ∧
    ((generateWorldInit 400 300).tiles 5 0).hardness = 61/120 := by
  refine ⟨by decide, by decide, by decide, by decide⟩

/-- Witness for C9: the amended hardness facts instantiated at the
original 400×300 world. -/
theorem generateWorldInit_spec_witness :
    (0 : ℤ) < 300 ∧
    ((generateWorldInit 400 300).tiles 5 0).hardness =
      1/2 + ((5 : ℚ) / (300 : ℚ)) * (1/2) :=
  ⟨by decide, (generateWorldInit_spec 400 300 (by decide) 0 7).2.2.1⟩

/-- Claim C3: for an agent with `0 ≤ health ≤ maxHealth` (and satisfying
the reachable-state invariant that a dead agent has zero health) and any
damage `a ≥ 0`, `takeDamage` keeps health in `[0, maxHealth]`, leaves
`alive = false` iff `health = 0`, and death is irreversible under any
further `takeDamage` calls. -/
theorem takeDamage_spec :
    (∀ (a : Ant) (amount : ℚ),
        0 ≤ a.health → a.health ≤ a.maxHealth → 0 ≤ amount →
        (a.alive = false → a.health = 0) →
        0 ≤ ((takeDamage a amount).1).health ∧
        ((takeDamage a amount).1).health ≤ ((takeDamage a amount).1).maxHealth ∧
        (((takeDamage a amount).1).alive = false ↔
          ((takeDamage a amount).1).health = 0) ∧
        (a.alive = false → ((takeDamage a amount).1).alive = false)) ∧
    (∀ (a : Ant) (amounts : List ℚ), a.alive = false →
        (takeDamageList a amounts).alive = false) := by
  constructor
  · intro a amount h0 hmax hamt hinv
    unfold takeDamage
    by_cases hz : a.health - amount ≤ 0
    · rw [if_pos hz]
      refine ⟨le_refl 0, by simpa using le_trans h0 hmax, by simp, fun _ => rfl⟩
    · rw [if_neg hz]
      have hpos : 0 < a.health - amount := lt_of_not_le hz
      have halive : a.alive = true := by
        by_contra hcon
        have : a.alive = false := by
          cases h : a.alive
          · rfl
          · exact absurd h hcon
        have := hinv this
        rw [this] at hpos
        linarith
      refine ⟨by simp only; linarith, by simp only; linarith, ?_, ?_⟩
      · simp only [halive]
        constructor
        · intro hcon; cases hcon
        · intro hcon; exfalso; rw [hcon] at hpos; exact lt_irrefl 0 hpos
      · intro hcon; rw [halive] at hcon; cases hcon
  · intro a amounts
    induction amounts generalizing a with
    | nil => intro h; exact h
    | cons m rest ih =>
      intro h
      have hstep : ((takeDamage a m).1).alive = false := by
        unfold takeDamage
        by_cases hz : a.health - m ≤ 0
        · rw [if_pos hz]
        · rw [if_neg hz]; exact h
      exact ih (takeDamage a m).1 hstep

/-- Witness for C3: a 100-health agent hit for 30 stays in range and alive. -/
theorem takeDamage_spec_witness :
    ((0:ℚ) ≤ antA.health ∧ antA.health ≤ antA.maxHealth ∧ (0:ℚ) ≤ 30 ∧
     (antA.alive = false → antA.health = 0)) ∧
    (0 ≤ ((takeDamage antA 30).1).health ∧
     ((takeDamage antA 30).1).health ≤ ((takeDamage antA 30).1).maxHealth ∧
     (((takeDamage antA 30).1).alive = false ↔
       ((takeDamage antA 30).1).health = 0) ∧
     (antA.alive = false → ((takeDamage antA 30).1).alive = false)) :=
  ⟨⟨by decide, by decide, by decide, by decide⟩,
   takeDamage_spec.1 antA 30 (by decide) (by decide) (by decide) (by decide)⟩

/-- Claim C4: the pickup step transfers exactly `min(carryCapacity, amount)`
from the source to the agent, and the delivery step moves exactly the
carried amount to the colony stockpile; both conserve the total
`source + carried + stockpile`. -/
theorem foodTransfer_spec :
    (∀ (w : Ant) (f : FoodSource),
        w.carryingFood = false → w.foodAmount = 0 →
        distSq w.x w.y f.x f.y < 1 → 0 < f.amount →
        ((pickupFood w f).1).foodAmount = min 5 f.amount ∧
        ((pickupFood w f).1).carryingFood = true ∧
        ((pickupFood w f).2).amount = f.amount - min 5 f.amount ∧
        ((pickupFood w f).2).amount + ((pickupFood w f).1).foodAmount =
          f.amount + w.foodAmount) ∧
    (∀ (w : Ant) (qx qy colonyFood : ℚ),
        w.carryingFood = true →
        distSq w.x w.y qx qy < 25/4 →
        (deliverFood w qx qy colonyFood).2 = colonyFood + w.foodAmount ∧
        ((deliverFood w qx qy colonyFood).1).foodAmount = 0 ∧
        ((deliverFood w qx qy colonyFood).1).carryingFood = false ∧
        (deliverFood w qx qy colonyFood).2 +
            ((deliverFood w qx qy colonyFood).1).foodAmount =
          colonyFood + w.foodAmount) := by
  constructor
  · intro w f hc hf hd ha
    unfold pickupFood
    rw [if_pos ⟨hd, ha⟩]
    refine ⟨rfl, rfl, rfl, ?_⟩
    simp only
    rw [hf]
    ring
  · intro w qx qy colonyFood hc hd
    unfold deliverFood
    rw [if_pos hd]
    exact ⟨rfl, rfl, rfl, by simp only; ring⟩

/-- Witness for C4: an empty-handed worker at distance 1/2 of a 50-unit
source picks up exactly 5, leaving 45. -/
theorem foodTransfer_spec_witness :
    (antA.carryingFood = false ∧ antA.foodAmount = 0 ∧
     distSq antA.x antA.y food50.x food50.y < 1 ∧ (0:ℚ) < food50.amount) ∧
    (((pickupFood antA food50).1).foodAmount = min 5 food50.amount ∧
     ((pickupFood antA food50).1).carryingFood = true ∧
     ((pickupFood antA food50).2).amount = food50.amount - min 5 food50.amount ∧
     ((pickupFood antA food50).2).amount + ((pickupFood antA food50).1).foodAmount =
       food50.amount + antA.foodAmount) :=
  ⟨⟨by decide, by decide, by decide, by decide⟩,
   foodTransfer_spec.1 antA food50 (by decide) (by decide) (by decide) (by decide)⟩

theorem spawnTry_spec (g : Grid) (qx qy : ℚ) :
    ∀ l : List (ℚ × ℚ),
      spawnTry g qx qy l = (qx, qy) ∨
      (canMove g (spawnTry g qx qy l).1 (spawnTry g qx qy l).2 = true ∧
       ∃ r ∈ l, spawnTry g qx qy l =
         (qx + (r.1 - 1/2) * 2, qy + (r.2 - 1/2) * 2)) := by
  intro l
  induction l with
  | nil => left; rfl
  | cons r rs ih =>
    by_cases hcm : canMove g (qx + (r.1 - 1/2) * 2) (qy + (r.2 - 1/2) * 2) = true
    · right
      have heq : spawnTry g qx qy (r :: rs) =
          (qx + (r.1 - 1/2) * 2, qy + (r.2 - 1/2) * 2) := by
        simp only [spawnTry]
        rw [if_pos hcm]
      rw [heq]
      exact ⟨hcm, r, by simp, rfl⟩
    · have heq : spawnTry g qx qy (r :: rs) = spawnTry g qx qy rs := by
        simp only [spawnTry]
        rw [if_neg hcm]
      rw [heq]
      rcases ih with h | ⟨h1, rr, hm, h2⟩
      · left; exact h
      · right; exact ⟨h1, rr, by simp [hm], h2⟩

theorem spawnWorker_alive (g : Grid) (c : Colony) (rands : ℕ → ℚ × ℚ)
    (h : c.queen.alive = true) :
    spawnWorker g c rands =
      { c with workers := c.workers ++
        [mkWorkerAnt (spawnTry g c.queen.x c.queen.y ((List.range 10).map rands)).1
          (spawnTry g c.queen.x c.queen.y ((List.range 10).map rands)).2 false] } := by
  unfold spawnWorker
  rw [if_neg (by rw [h]; intro hcon; cases hcon)]

/-- Claim C7: a queen update spawns a worker iff the spawn timer has
reached the cooldown and the colony food covers the cost; when it fires it
appends exactly one worker at a position found by bounded retries against
`canMove` (falling back to the queen position), deducts exactly
`foodPerWorker` and resets the timer; otherwise food and workers are
unchanged and the timer just advances. -/
theorem queenUpdate_spec :
    ∀ (dt : ℚ) (g : Grid) (c : Colony) (rands : ℕ → ℚ × ℚ),
      c.queen.alive = true →
      ((spawnCooldown ≤ c.queen.spawnTimer + dt ∧ foodPerWorker ≤ c.food) →
        (queenUpdate dt g c rands).food = c.food - foodPerWorker ∧
        (queenUpdate dt g c rands).queen.spawnTimer = 0 ∧
        (∃ pos : ℚ × ℚ,
          (queenUpdate dt g c rands).workers =
            c.workers ++ [mkWorkerAnt pos.1 pos.2 false] ∧
          (pos = (c.queen.x, c.queen.y) ∨
            (canMove g pos.1 pos.2 = true ∧
             ∃ i < 10, pos = (c.queen.x + ((rands i).1 - 1/2) * 2,
                              c.queen.y + ((rands i).2 - 1/2) * 2))))) ∧
      (¬(spawnCooldown ≤ c.queen.spawnTimer + dt ∧ foodPerWorker ≤ c.food) →
        (queenUpdate dt g c rands).food = c.food ∧
        (queenUpdate dt g c rands).workers = c.workers ∧
        (queenUpdate dt g c rands).queen.spawnTimer = c.queen.spawnTimer + dt) := by
  intro dt g c rands halive
  constructor
  · intro hcond
    unfold queenUpdate
    rw [if_pos hcond, spawnWorker_alive]
    · refine ⟨rfl, rfl,
        ⟨spawnTry g c.queen.x c.queen.y ((List.range 10).map rands), rfl, ?_⟩⟩
      rcases spawnTry_spec g c.queen.x c.queen.y ((List.range 10).map rands) with
        h | ⟨h1, r, hm, h2⟩
      · left; exact h
      · right
        refine ⟨h1, ?_⟩
        rw [List.mem_map] at hm
        obtain ⟨i, hi, hri⟩ := hm
        rw [List.mem_range] at hi
        refine ⟨i, hi, ?_⟩
        rw [h2, ← hri]
    · exact halive
  · intro hcond
    unfold queenUpdate
    rw [if_neg hcond]
    exact ⟨rfl, rfl, rfl⟩

/-- Witness for C7: with timer 9 + dt 1 = cooldown 10 and food 25 ≥ 20, the
queen update deducts 20, resets the timer and appends one worker. -/
theorem queenUpdate_spec_witness :
    (readyColony.queen.alive = true ∧
     (spawnCooldown ≤ readyColony.queen.spawnTimer + 1 ∧
      foodPerWorker ≤ readyColony.food)) ∧
    ((queenUpdate 1 dirtCell readyColony randsZero).food =
        readyColony.food - foodPerWorker ∧
     (queenUpdate 1 dirtCell readyColony randsZero).queen.spawnTimer = 0 ∧
     (∃ pos : ℚ × ℚ,
       (queenUpdate 1 dirtCell readyColony randsZero).workers =
         readyColony.workers ++ [mkWorkerAnt pos.1 pos.2 false] ∧
       (pos = (readyColony.queen.x, readyColony.queen.y) ∨
         (canMove dirtCell pos.1 pos.2 = true ∧
          ∃ i < 10, pos = (readyColony.queen.x + ((randsZero i).1 - 1/2) * 2,
                           readyColony.queen.y + ((randsZero i).2 - 1/2) * 2))))) :=
  ⟨⟨by decide, by decide⟩,
   (queenUpdate_spec 1 dirtCell readyColony randsZero (by decide)).1 (by decide)⟩

theorem firstTarget_none_iff (self : Ant) :
    ∀ l : List Ant, firstTarget self l = none ↔ ∀ t ∈ l, ¬ eligibleTarget self t := by
  intro l
  induction l with
  | nil => simp [firstTarget]
  | cons t ts ih =>
    by_cases he : eligibleTarget self t
    · simp [firstTarget, he]
    · simp only [firstTarget, if_neg he]
      constructor
      · intro h t2 ht2
        rcases List.mem_cons.mp ht2 with rfl | hmem
        · exact he
        · have hnone : firstTarget self ts = none := by
            cases hft : firstTarget self ts
            · rfl
            · rw [hft] at h; cases h
          exact (ih.mp hnone) t2 hmem
      · intro h
        have hnone : firstTarget self ts =
            none := ih.mpr (fun t2 ht2 => h t2 (by simp [ht2]))
        rw [hnone]
        rfl

theorem firstTarget_some (self : Ant) :
    ∀ (l : List Ant) (p : ℕ × Ant), firstTarget self l = some p →
      l[p.1]? = some p.2 ∧ eligibleTarget self p.2 := by
  intro l
  induction l with
  | nil => intro p h; cases h
  | cons t0 ts ih =>
    intro p h
    by_cases he : eligibleTarget self t0
    · simp only [firstTarget, if_pos he] at h
      injection h with h
      rw [← h]
      exact ⟨by simp, he⟩
    · simp only [firstTarget, if_neg he] at h
      cases hft : firstTarget self ts with
      | none => rw [hft] at h; cases h
      | some q =>
        rw [hft] at h
        injection h with h
        obtain ⟨h1, h2⟩ := ih q hft
        rw [← h]
        exact ⟨by simpa using h1, h2⟩

theorem notEligible_of_cooldown (self : Ant) (h : 0 < self.attackCooldown) :
    (∀ t : Ant, ¬ eligibleTarget self t) ∧ (∀ q : Ant, ¬ queenEligible self q) := by
  constructor
  · intro t ht
    exact absurd ht.2.2.2 (not_le_of_lt h)
  · intro q hq
    exact absurd hq.2.2 (not_le_of_lt h)

theorem checkCombatColonies_none_of (self : Ant) (sf : ℕ)
    (h1 : ∀ t : Ant, ¬ eligibleTarget self t)
    (h2 : ∀ q : Ant, ¬ queenEligible self q) :
    ∀ cs : List Colony, checkCombatColonies self sf cs = none := by
  intro cs
  induction cs with
  | nil => rfl
  | cons c0 rest ih =>
    by_cases hf : c0.factionId = sf
    · simp only [checkCombatColonies, if_pos hf, ih]
      rfl
    · have hft : firstTarget self c0.workers = none :=
        (firstTarget_none_iff self c0.workers).mpr (fun t _ => h1 t)
      simp only [checkCombatColonies, if_neg hf, hft, if_neg (h2 c0.queen), ih]
      rfl

theorem checkCombatColonies_none (self : Ant) (sf : ℕ) :
    ∀ cs : List Colony, checkCombatColonies self sf cs = none →
      ∀ c ∈ cs, c.factionId = sf ∨
        ((∀ t ∈ c.workers, ¬ eligibleTarget self t) ∧
         ¬ queenEligible self c.queen) := by
  intro cs
  induction cs with
  | nil => intro _ c hc; cases hc
  | cons c0 rest ih =>
    intro h c hc
    by_cases hf : c0.factionId = sf
    · have hrec : checkCombatColonies self sf rest = none := by
        simp only [checkCombatColonies, if_pos hf] at h
        cases hx : checkCombatColonies self sf rest
        · rfl
        · rw [hx] at h; cases h
      rcases List.mem_cons.mp hc with rfl | hmem
      · left; exact hf
      · exact ih hrec c hmem
    · simp only [checkCombatColonies, if_neg hf] at h
      cases hft : firstTarget self c0.workers with
      | some p => rw [hft] at h; cases h
      | none =>
        rw [hft] at h
        by_cases hq : queenEligible self c0.queen
        · rw [if_pos hq] at h; cases h
        · rw [if_neg hq] at h
          have hrec : checkCombatColonies self sf rest = none := by
            cases hx : checkCombatColonies self sf rest
            · rfl
            · rw [hx] at h; cases h
          rcases List.mem_cons.mp hc with rfl | hmem
          · right
            exact ⟨(firstTarget_none_iff self _).mp hft, hq⟩
          · exact ih hrec c hmem

theorem checkCombatColonies_some (self : Ant) (sf : ℕ) :
    ∀ (cs cs2 : List Colony),
      checkCombatColonies self sf cs = some cs2 →
      ∃ j c, cs[j]? = some c ∧ c.factionId ≠ sf ∧
        ((∃ i t, c.workers[i]? = some t ∧ eligibleTarget self t ∧
           cs2 = cs.set j
             { c with workers := c.workers.set i (hitAnt t (workerDamage self)) }) ∨
         (queenEligible self c.queen ∧
           cs2 = cs.set j { c with queen := hitAnt c.queen (queenDamage self) })) := by
  intro cs
  induction cs with
  | nil => intro cs2 h; cases h
  | cons c0 rest ih =>
    intro cs2 h
    by_cases hf : c0.factionId = sf
    · simp only [checkCombatColonies, if_pos hf] at h
      cases hx : checkCombatColonies self sf rest with
      | none => rw [hx] at h; cases h
      | some r =>
        rw [hx] at h
        have h : c0 :: r = cs2 := by injection h
        obtain ⟨j, c, hj, hfc, hshape⟩ := ih r hx
        refine ⟨j + 1, c, by simpa using hj, hfc, ?_⟩
        rcases hshape with ⟨i, t, hit, he, hset⟩ | ⟨hq, hset⟩
        · left
          refine ⟨i, t, hit, he, ?_⟩
          rw [← h, hset]
          rfl
        · right
          refine ⟨hq, ?_⟩
          rw [← h, hset]
          rfl
    · simp only [checkCombatColonies, if_neg hf] at h
      cases hft : firstTarget self c0.workers with
      | some p =>
        rw [hft] at h
        injection h with h
        obtain ⟨hw, he⟩ := firstTarget_some self c0.workers p hft
        refine ⟨0, c0, by simp, hf, Or.inl ⟨p.1, p.2, hw, he, ?_⟩⟩
        rw [← h]
        rfl
      | none =>
        rw [hft] at h
        by_cases hq : queenEligible self c0.queen
        · rw [if_pos hq] at h
          injection h with h
          refine ⟨0, c0, by simp, hf, Or.inr ⟨hq, ?_⟩⟩
          rw [← h]
          rfl
        · rw [if_neg hq] at h
          cases hx : checkCombatColonies self sf rest with
          | none => rw [hx] at h; cases h
          | some r =>
            rw [hx] at h
            have h : c0 :: r = cs2 := by injection h
            obtain ⟨j, c, hj, hfc, hshape⟩ := ih r hx
            refine ⟨j + 1, c, by simpa using hj, hfc, ?_⟩
            rcases hshape with ⟨i, t, hit, he, hset⟩ | ⟨hq2, hset⟩
            · left
              refine ⟨i, t, hit, he, ?_⟩
              rw [← h, hset]
              rfl
            · right
              refine ⟨hq2, ?_⟩
              rw [← h, hset]
              rfl

theorem checkCombat_noop (self : Ant) (sf : ℕ) (es : List Ant) (cs : List Colony)
    (h : 0 < self.attackCooldown) : checkCombat self sf es cs = (self, es, cs) := by
  obtain ⟨h1, h2⟩ := notEligible_of_cooldown self h
  have hfe : firstTarget self es = none :=
    (firstTarget_none_iff self es).mpr (fun t _ => h1 t)
  have hcc := checkCombatColonies_none_of self sf h1 h2 cs
  simp only [checkCombat, hfe, hcc]

/-- Claim C8: with the attacker cooldown elapsed and some defender of an
opposing faction in attack range, `checkCombat` applies exactly one
flat-damage hit to exactly one defender (first found, in scan order),
resets only the attacker cooldown to 0.5 and leaves every defender
cooldown unchanged; with a positive cooldown (in particular on any further
update within the cooldown window) it changes nothing.  The `EnemyAnt`
attack step behaves the same with damage 8 and cooldown 1. -/
theorem checkCombat_spec :
    (∀ (self : Ant) (sf : ℕ) (es : List Ant) (cs : List Colony),
        0 < self.attackCooldown →
        checkCombat self sf es cs = (self, es, cs)) ∧
    (∀ (self : Ant) (sf : ℕ) (es : List Ant) (cs : List Colony),
        self.attackCooldown ≤ 0 →
        ((∃ t ∈ es, eligibleTarget self t) ∨
         (∃ c ∈ cs, c.factionId ≠ sf ∧
            ((∃ t ∈ c.workers, eligibleTarget self t) ∨
             queenEligible self c.queen))) →
        (checkCombat self sf es cs).1 = { self with attackCooldown := 1/2 } ∧
        OneHit self sf es cs (checkCombat self sf es cs).2) ∧
    (∀ (t : Ant) (d : ℚ), (hitAnt t d).attackCooldown = t.attackCooldown) ∧
    (∀ self : Ant, workerDamage self = if self.isPlayer then 30 else 15) ∧
    (∀ self : Ant, queenDamage self = if self.isPlayer then 20 else 10) ∧
    (∀ (self : Ant) (sf : ℕ) (es : List Ant) (cs : List Colony) (dt : ℚ),
        0 ≤ dt → dt < 1/2 → self.attackCooldown = 1/2 →
        checkCombat (cooldownTick self dt) sf es cs =
          (cooldownTick self dt, es, cs)) ∧
    (∀ self t : Ant,
        distSq self.x self.y t.x t.y < 9/4 → self.attackCooldown = 0 →
        enemyAttack self t = ({ self with attackCooldown := 1 }, hitAnt t 8)) ∧
    (∀ (self t : Ant) (dt : ℚ), 0 ≤ dt → dt < 1 → self.attackCooldown = 1 →
        enemyAttack (cooldownTick self dt) t = (cooldownTick self dt, t)) := by
  refine ⟨fun self sf es cs h => checkCombat_noop self sf es cs h,
    ?_, ?_, fun _ => rfl, fun _ => rfl, ?_, ?_, ?_⟩
  · intro self sf es cs hcd hex
    cases hfe : firstTarget self es with
    | some p =>
      obtain ⟨hes, hel⟩ := firstTarget_some self es p hfe
      constructor
      · simp only [checkCombat, hfe]
      · left
        exact ⟨p.1, p.2, hes, hel, by simp only [checkCombat, hfe]⟩
    | none =>
      cases hcc : checkCombatColonies self sf cs with
      | some cs2 =>
        obtain ⟨j, c, hj, hfc, hsh⟩ := checkCombatColonies_some self sf cs cs2 hcc
        constructor
        · simp only [checkCombat, hfe, hcc]
        · right
          refine ⟨j, c, hj, hfc, ?_⟩
          rcases hsh with ⟨i, t, ha, hb, hc2⟩ | ⟨ha, hb⟩
          · left
            refine ⟨i, t, ha, hb, ?_⟩
            simp only [checkCombat, hfe, hcc]
            rw [← hc2]
          · right
            refine ⟨ha, ?_⟩
            simp only [checkCombat, hfe, hcc]
            rw [← hb]
      | none =>
        exfalso
        rcases hex with ⟨t, hmem, hel⟩ | ⟨c, hmem, hfc, hsub⟩
        · exact (firstTarget_none_iff self es).mp hfe t hmem hel
        · rcases checkCombatColonies_none self sf cs hcc c hmem with h | ⟨hw, hq⟩
          · exact hfc h
          · rcases hsub with ⟨t, htm, hte⟩ | hqe
            · exact hw t htm hte
            · exact hq hqe
  · intro t d
    simp only [hitAnt, takeDamage]
    split_ifs <;> rfl
  · intro self sf es cs dt h0 hlt heq
    apply checkCombat_noop
    show 0 < max 0 (self.attackCooldown - dt)
    rw [heq]
    exact lt_max_iff.mpr (Or.inr (by linarith))
  · intro self t hd hc
    unfold enemyAttack
    rw [if_pos ⟨hd, hc⟩]
  · intro self t dt h0 hlt heq
    unfold enemyAttack
    rw [if_neg]
    intro ⟨_, hc⟩
    have hmax : max 0 (self.attackCooldown - dt) = 0 := hc
    rw [heq] at hmax
    have hge : (1 : ℚ) - dt ≤ max 0 (1 - dt) := le_max_right 0 (1 - dt)
    rw [hmax] at hge
    linarith

/-- Witness for C8: an attacker with elapsed cooldown next to a live enemy
one tile away lands exactly one hit and resets its cooldown to 0.5. -/
theorem checkCombat_spec_witness :
    (antA.attackCooldown ≤ 0 ∧ eligibleTarget antA enemyB) ∧
    ((checkCombat antA 0 [enemyB] []).1 = { antA with attackCooldown := 1/2 } ∧
     OneHit antA 0 [enemyB] [] (checkCombat antA 0 [enemyB] []).2) :=
  ⟨⟨by decide, by decide⟩,
   checkCombat_spec.2.1 antA 0 [enemyB] [] (by decide)
     (Or.inl ⟨enemyB, by simp, by decide⟩)⟩

theorem orInf_zero : orInf (some ((0 : ℚ) : WithTop ℚ)) = ⊤ := by
  simp [orInf]

theorem relaxNeighbor_zero (g : Grid) (e current : Node) (st : AState) (nbr : Node)
    (h : aget st.gScore current = some ((0 : ℚ) : WithTop ℚ)) :
    relaxNeighbor g e current st nbr = st := by
  unfold relaxNeighbor
  by_cases hcm : canMove g (nbr.1 : ℚ) (nbr.2 : ℚ) = false
  · rw [if_pos hcm]
  · rw [if_neg hcm]
    have htop : orInf (aget st.gScore current) +
        (if (nbr.1 ≠ current.1 ∧ nbr.2 ≠ current.2) then ((7/5 : ℚ) : WithTop ℚ)
         else ((1 : ℚ) : WithTop ℚ)) = ⊤ := by
      rw [h, orInf_zero, top_add]
    rw [if_neg]
    rw [htop]
    exact not_top_lt

theorem relaxAll_zero (g : Grid) (e current : Node) (st : AState)
    (h : aget st.gScore current = some ((0 : ℚ) : WithTop ℚ)) :
    (neighborsOf current).foldl (relaxNeighbor g e current) st = st := by
  simp only [neighborsOf, List.foldl_cons, List.foldl_nil,
    relaxNeighbor_zero g e current st _ h]

theorem astarLoop_start (g : Grid) (s e : Node) (fuel : ℕ) :
    astarLoop g e (fuel + 1 + 1)
      { openSet := [s], cameFrom := [],
        gScore := [(s, ((0 : ℚ) : WithTop ℚ))],
        fScore := [(s, ((heuristic s.1 s.2 e.1 e.2 : ℚ) : WithTop ℚ))] } =
      if s = e then some [tileCenter s] else none := by
  by_cases hse : s = e
  · rw [if_pos hse]
    simp only [astarLoop, lowestGo]
    rw [if_pos hse]
    rfl
  · rw [if_neg hse]
    simp only [astarLoop, lowestGo]
    rw [if_neg hse]
    rw [relaxAll_zero g e s _ (by simp [aget])]
    rfl

theorem findPath_char (g : Grid) (sx sy ex ey : ℚ) :
    findPath g sx sy ex ey =
      if canMove g ((⌊sx⌋ : ℤ) : ℚ) ((⌊sy⌋ : ℤ) : ℚ) = true ∧
         canMove g ((⌊ex⌋ : ℤ) : ℚ) ((⌊ey⌋ : ℤ) : ℚ) = true then
        if ((⌊sx⌋, ⌊sy⌋) : Node) = ((⌊ex⌋, ⌊ey⌋) : Node) then
          some [tileCenter (⌊sx⌋, ⌊sy⌋)]
        else none
      else none := by
  unfold findPath
  dsimp only
  by_cases hs : canMove g ((⌊sx⌋ : ℤ) : ℚ) ((⌊sy⌋ : ℤ) : ℚ) = false
  · rw [if_pos (Or.inl hs), if_neg (by simp [hs])]
  · by_cases he : canMove g ((⌊ex⌋ : ℤ) : ℚ) ((⌊ey⌋ : ℤ) : ℚ) = false
    · rw [if_pos (Or.inr he), if_neg (by simp [he])]
    · have hs2 : canMove g ((⌊sx⌋ : ℤ) : ℚ) ((⌊sy⌋ : ℤ) : ℚ) = true := by
        cases hb : canMove g ((⌊sx⌋ : ℤ) : ℚ) ((⌊sy⌋ : ℤ) : ℚ)
        · exact absurd hb hs
        · rfl
      have he2 : canMove g ((⌊ex⌋ : ℤ) : ℚ) ((⌊ey⌋ : ℤ) : ℚ) = true := by
        cases hb : canMove g ((⌊ex⌋ : ℤ) : ℚ) ((⌊ey⌋ : ℤ) : ℚ)
        · exact absurd hb he
        · rfl
      rw [if_neg (by intro hcon; rcases hcon with h | h; exact hs h; exact he h),
        if_pos ⟨hs2, he2⟩]
      show astarLoop g (⌊ex⌋, ⌊ey⌋) maxIterations _ = _
      have h500 : maxIterations = 498 + 1 + 1 := rfl
      rw [h500]
      exact astarLoop_start g (⌊sx⌋, ⌊sy⌋) (⌊ex⌋, ⌊ey⌋) 498

theorem canMove_floor (g : Grid) (x y : ℚ) :
    canMove g ((⌊x⌋ : ℤ) : ℚ) ((⌊y⌋ : ℤ) : ℚ) = canMove g x y := by
  unfold canMove getTile
  rw [Int.floor_intCast, Int.floor_intCast]

/-- Claim C5 (code bug): on the fully open 5×5 grid, `findPath(0,0,4,4)`
returns `null` instead of a path.  The start node gScore 0 is falsy, so
`gScore.get(current) || Infinity` (game.js:4177) reads as `Infinity`, no
neighbor is ever relaxed, and the open set empties after one expansion. -/
theorem findPath_open5_returns_none : findPath open5 0 0 4 4 = none := by
  rw [findPath_char]
  rw [if_pos ⟨by decide, by decide⟩, if_neg (by decide)]

/-- Claim C6: `findPath` returns `null` (never an error) when either
endpoint is impassable — checked before any search — and the search loop
is capped at 500 expansions, returning `null` when the cap (or the open
set) is exhausted. -/
theorem findPath_null_cases :
    (∀ (g : Grid) (sx sy ex ey : ℚ),
        canMove g sx sy = false ∨ canMove g ex ey = false →
        findPath g sx sy ex ey = none) ∧
    (∀ (g : Grid) (e : Node) (st : AState), astarLoop g e 0 st = none) ∧
    maxIterations = 500 := by
  refine ⟨?_, fun g e st => rfl, rfl⟩
  intro g sx sy ex ey h
  rw [findPath_char]
  rw [if_neg]
  rw [canMove_floor, canMove_floor]
  rcases h with h | h
  · intro hcon
    rw [hcon.1] at h
    cases h
  · intro hcon
    rw [hcon.2] at h
    cases h

/-- Witness for C6: a fully solid 1×1 world has an impassable start, so
`findPath` returns `null`. -/
theorem findPath_null_cases_witness :
    (canMove dirtCell 0 0 = false ∨ canMove dirtCell 0 0 = false) ∧
    findPath dirtCell 0 0 0 0 = none :=
  ⟨Or.inl (by decide),
   findPath_null_cases.1 dirtCell 0 0 0 0 (Or.inl (by decide))⟩
